import Mathlib

/-!
Shallow embedding of `src/collector.py` (class `DataManager`): the sync
engine that fetches daily trading rows from a category-specific upstream
API, normalizes them into one canonical record shape, derives the
`vol_ratio` rolling metric, and appends the result to a sqlite table
`daily_records` with primary key `(date, code)`.

Modelling conventions:
- Calendar dates are day numbers (`Nat`).  The source canonicalizes dates
  to the ISO string form `YYYY-MM-DD` and compares strings; for fixed-width
  ISO strings that lexicographic order coincides with calendar order, so a
  `Nat` with the usual order is a faithful model.  Likewise the compact
  `YYYYMMDD` boundary strings compared in `sync_data`.
- Money amounts and prices are exact rationals (`Rat`); the model assumes
  the 5-day turnover mean is nonzero where a ratio is formed (turnover is
  positive in practice), so float `inf`/`NaN` corner cases do not arise.
- The upstream provider (`akshare`) is an opaque capability: one function
  per API endpoint, returning `none` when the call raises.
- pandas `DataFrame` values become lists of records in row order.
-/

namespace CnStockMonitor

/-- Raw row of the index endpoint `ak.stock_zh_index_daily_em`: it supplies
only date, close and amount (turnover). -/
structure IdxRaw where
  date : Nat
  close : Rat
  amount : Rat
  deriving DecidableEq, Inhabited

/-- Raw row of the ETF endpoint `ak.fund_etf_hist_em` and the equity
endpoint `ak.stock_zh_a_hist`: date, close, pct-change, amount,
turnover-rate and amplitude are supplied directly. -/
structure FullRaw where
  date : Nat
  close : Rat
  pchg : Rat
  amount : Rat
  trate : Rat
  ampl : Rat
  deriving DecidableEq, Inhabited

/-- The canonical normalized row before `code`/`name`/`vol_ratio` are
attached: the state of the DataFrame after the per-category branch of
`fetch_data`.  `pchg = none` models a pandas `NaN` in the 涨跌幅 column
(first row of the index path). -/
structure NormRow where
  date : Nat
  close : Rat
  pchg : Option Rat
  amount : Rat
  trate : Rat
  ampl : Rat
  deriving DecidableEq, Inhabited

/-- One row of the `daily_records` table (the final canonical record). -/
structure DailyRecord where
  date : Nat
  code : String
  name : String
  close : Rat
  pchg : Option Rat
  amount : Rat
  trate : Rat
  ampl : Rat
  vrat : Rat
  deriving DecidableEq, Inhabited

/-- The three normalization paths of `fetch_data`. -/
inductive Category where
  | index
  | fund
  | equity
  deriving DecidableEq, Inhabited

/-- python `str.startswith`, as a structural test on the character list. -/
def strStarts (s p : String) : Bool := p.data.isPrefixOf s.data

/-- Category routing of `fetch_data`: `symbol.startswith(('sh0', 'sz3'))`
selects the index branch, `elif symbol.startswith(('5', '1'))` the ETF
branch, `else` the equity branch. -/
def categoryOf (symbol : String) : Category :=
  if strStarts symbol "sh0" || strStarts symbol "sz3" then Category.index
  else if strStarts symbol "5" || strStarts symbol "1" then Category.fund
  else Category.equity

/-- The opaque upstream fetch capability (akshare).  `none` models a raised
exception.  The index endpoint takes no date range and returns full
history; the ETF and equity endpoints take the requested range. -/
structure Upstream where
  indexHist : String → Option (List IdxRaw)
  etfHist : String → Nat → Nat → Option (List FullRaw)
  stockHist : String → Nat → Nat → Option (List FullRaw)

/-- Index-path normalization (lines 27-31 of `collector.py`):
`df['涨跌幅'] = df['收盘'].pct_change() * 100` (the first row gets `NaN`,
modelled `none`), `df['换手率'] = 0.0`, `df['振幅'] = 0.0`. -/
def normIndex (rows : List IdxRaw) : List NormRow :=
  (List.range rows.length).map fun i =>
    let r := rows.getD i default
    { date := r.date
      close := r.close
      pchg :=
        if i = 0 then none
        else
          let p := rows.getD (i - 1) default
          some ((r.close - p.close) / p.close * 100)
      amount := r.amount
      trate := 0
      ampl := 0 }

/-- Fund/equity-path normalization (lines 33-45): a pure column relabel,
every field passes through. -/
def normFull (rows : List FullRaw) : List NormRow :=
  rows.map fun r =>
    { date := r.date
      close := r.close
      pchg := some r.pchg
      amount := r.amount
      trate := r.trate
      ampl := r.ampl }

/-- The window filter of lines 52-53: keep rows with
`start_date <= date <= end_date` (string comparison of canonical ISO
dates, i.e. calendar comparison). -/
def windowFilter (s e : Nat) (rows : List NormRow) : List NormRow :=
  rows.filter fun r => decide (s ≤ r.date) && decide (r.date ≤ e)

/-- numpy rounding to 2 decimal places (`.round(2)`): round half to even. -/
def round2 (x : Rat) : Rat :=
  let y := x * 100
  let f : Int := Int.floor y
  let frac := y - (f : Rat)
  let r : Int :=
    if frac < 1 / 2 then f
    else if 1 / 2 < frac then f + 1
    else if f % 2 = 0 then f else f + 1
  (r : Rat) / 100

/-- The pandas rolling 5-mean at row `i` of a batch
(`df['成交额'].rolling(window=5).mean()`): defined once the window holds 5
observations, i.e. once row `i` has 4 predecessors, and equal to the mean
of rows `i-4 .. i` (the current row included); `none` models `NaN`. -/
def rollMean5 (amounts : List Rat) (i : Nat) : Option Rat :=
  if 4 ≤ i then some (((amounts.take (i + 1)).drop (i - 4)).sum / 5)
  else none

/-- Field `vol_ratio` at row `i` (lines 56-57): `(amount / rolling-5-mean).round(2)`
then `fillna(1.0)`, so an undefined mean yields the neutral `1`. -/
def volRat (amounts : List Rat) (i : Nat) : Rat :=
  match rollMean5 amounts i with
  | some m => round2 (amounts.getD i 0 / m)
  | none => 1

/-- Lines 56-67: attach `vol_ratio` (computed over this batch's amounts),
`code` and `name` to every row of the filtered batch, producing the final
records in row order. -/
def addDerived (symbol nm : String) (rows : List NormRow) : List DailyRecord :=
  let amounts := rows.map (fun r => r.amount)
  (List.range rows.length).map fun i =>
    let r := rows.getD i default
    { date := r.date
      code := symbol
      name := nm
      close := r.close
      pchg := r.pchg
      amount := r.amount
      trate := r.trate
      ampl := r.ampl
      vrat := volRat amounts i }

/-- The per-category raw fetch + normalization of lines 26-45, `none` when
the upstream call raises. -/
def rawFetch (u : Upstream) (symbol : String) (s e : Nat) :
    Option (List NormRow) :=
  match categoryOf symbol with
  | Category.index => (u.indexHist symbol).map normIndex
  | Category.fund => (u.etfHist symbol s e).map normFull
  | Category.equity => (u.stockHist symbol s e).map normFull

/-- Lines 47-67 after the category branch: the `df.empty` early return,
then the window filter, then `vol_ratio`/`code`/`name` attachment. -/
def processBatch (symbol nm : String) (s e : Nat) (rows : List NormRow) :
    List DailyRecord :=
  if rows.isEmpty then []
  else addDerived symbol nm (windowFilter s e rows)

/-- Function `DataManager.fetch_data`: normalize one upstream response into final
records; any raised upstream error is caught and yields the empty result
(lines 69-71). -/
def fetchData (u : Upstream) (symbol nm : String) (s e : Nat) :
    List DailyRecord :=
  match rawFetch u symbol s e with
  | none => []
  | some rows => processBatch symbol nm s e rows

/-- The `daily_records` table content, in insertion order. -/
abbrev Store := List DailyRecord

/-- The checkpoint query `SELECT MAX(date) FROM daily_records WHERE name = ?` of line 77. -/
def maxDateByName (s : Store) (nm : String) : Option Nat :=
  s.foldr
    (fun r acc =>
      if r.name = nm then
        some (match acc with
          | none => r.date
          | some m => Nat.max r.date m)
      else acc)
    none

/-- Whether the table already holds a row with this primary key. -/
def hasKey (s : Store) (d : Nat) (c : String) : Bool :=
  s.any fun r => decide (r.date = d) && decide (r.code = c)

/-- One sqlite `INSERT` into a table with `PRIMARY KEY (date, code)`:
a duplicate key raises `IntegrityError` (modelled `none`); otherwise the
row is appended. -/
def insertRow (s : Store) (r : DailyRecord) : Option Store :=
  if hasKey s r.date r.code then none else some (s ++ [r])

/-- Line 94, `data.to_sql('daily_records', conn, if_exists='append')`:
plain row-by-row `INSERT`s; the first duplicate `(date, code)` raises and
aborts the statement. -/
def appendRows (s : Store) (rows : List DailyRecord) : Option Store :=
  match rows with
  | [] => some s
  | r :: rest =>
    match insertRow s r with
    | none => none
    | some s2 => appendRows s2 rest

/-- Lines 80-85: the fetch start boundary from the checkpoint — latest
stored date + 1 day when a checkpoint exists for the name, else 30 days
before the current date (`datetime.now() - timedelta(days=30)`). -/
def startBoundary (s : Store) (today : Nat) (nm : String) : Nat :=
  match maxDateByName s nm with
  | some d => d + 1
  | none => today - 30

/-- Observable events of one sync run, in order.  `slept` is the
unconditional `time.sleep(0.5)` of line 96 — a pause of 0.5 seconds. -/
inductive Event where
  | fetchCall (symbol : String) (s e : Nat)
  | appended (symbol : String) (n : Nat)
  | skippedCurrent (nm : String)
  | slept
  deriving DecidableEq, Inhabited

/-- The body of the `sync_data` loop for one instrument (lines 75-96):
resolve the checkpoint, skip with the "current" outcome when
`start_dt > end_dt`, else fetch, append when nonempty, and sleep.  A
duplicate-key `IntegrityError` from the append propagates (result `none`)
and the sleep is not reached. -/
def syncOne (u : Upstream) (today : Nat) (s : Store) (code nm : String) :
    Option Store × List Event :=
  let s0 := startBoundary s today nm
  if today < s0 then (some s, [Event.skippedCurrent nm])
  else
    let data := fetchData u code nm s0 today
    if data.isEmpty then (some s, [Event.fetchCall code s0 today, Event.slept])
    else
      match appendRows s data with
      | none => (none, [Event.fetchCall code s0 today])
      | some s2 =>
        (some s2,
          [Event.fetchCall code s0 today, Event.appended code data.length,
            Event.slept])

/-- Function `DataManager.sync_data` over the target list (a python dict iterated
in insertion order, so an association list `code ↦ name`), threading the
store and collecting the event trace.  An uncaught exception (duplicate
primary key) aborts the remaining instruments. -/
def syncData (u : Upstream) (today : Nat)
    (targets : List (String × String)) (s : Store) :
    Option Store × List Event :=
  match targets with
  | [] => (some s, [])
  | (code, nm) :: rest =>
    match syncOne u today s code nm with
    | (none, evs) => (none, evs)
    | (some s2, evs) =>
      let rec2 := syncData u today rest s2
      (rec2.1, evs ++ rec2.2)

/-- The store after a sync run (`none` = the run crashed). -/
def syncStore (u : Upstream) (today : Nat)
    (targets : List (String × String)) (s : Store) : Option Store :=
  (syncData u today targets s).1

/-- The `(date, code)` primary-key uniqueness predicate on the table. -/
def uniqueKeys (s : Store) : Prop :=
  s.Pairwise fun a b => a.date ≠ b.date ∨ a.code ≠ b.code

/-- Did the sync run make an upstream call here? -/
def isFetchEv : Event → Bool
  | Event.fetchCall _ _ _ => true
  | _ => false

/-- Scan of an event trace checking the pacing discipline: between any
upstream call and the next, a sleep must occur.  The boolean state records
whether a fetch has happened with no sleep since. -/
def pacedFrom : Bool → List Event → Bool
  | _, [] => true
  | _, Event.slept :: rest => pacedFrom false rest
  | b, Event.fetchCall _ _ _ :: rest => !b && pacedFrom true rest
  | b, _ :: rest => pacedFrom b rest

/-! ### Concrete instances used by witnesses and counterexamples -/

/-- A concrete upstream whose ETF endpoint over-returns: one row far below
any requested window start, one inside. -/
def uWin : Upstream :=
  { indexHist := fun _ => none
    etfHist := fun _ _ _ => some [⟨5, 1, 2, 3, 4, 5⟩, ⟨20, 2, 3, 4, 5, 6⟩]
    stockHist := fun _ _ _ => none }

/-- The single record `uWin` yields for the window `[10, 30]`. -/
def rWin : DailyRecord :=
  { date := 20, code := "513100", name := "Y", close := 2, pchg := some 3
    amount := 4, trate := 5, ampl := 6, vrat := 1 }

/-- A concrete upstream returning five ETF rows with amounts
`1, 1, 1, 1, 6`: the fifth row has exactly four predecessors in its batch,
yet its rolling 5-mean is defined (`= 2`). -/
def uFive : Upstream :=
  { indexHist := fun _ => none
    etfHist := fun _ _ _ =>
      some [⟨1, 1, 0, 1, 0, 0⟩, ⟨2, 1, 0, 1, 0, 0⟩, ⟨3, 1, 0, 1, 0, 0⟩,
        ⟨4, 1, 0, 1, 0, 0⟩, ⟨5, 1, 0, 6, 0, 0⟩]
    stockHist := fun _ _ _ => none }

/-- A concrete upstream for the index endpoint (full history, no range
argument): ten days, close moving from 100 to 110 at day 7, amounts 1
except 6 on day 10. -/
def uIdxTen : Upstream :=
  { indexHist := fun _ =>
      some [⟨1, 100, 1⟩, ⟨2, 100, 1⟩, ⟨3, 100, 1⟩, ⟨4, 100, 1⟩, ⟨5, 100, 1⟩,
        ⟨6, 100, 1⟩, ⟨7, 110, 1⟩, ⟨8, 110, 1⟩, ⟨9, 110, 1⟩, ⟨10, 110, 6⟩]
    etfHist := fun _ _ _ => none
    stockHist := fun _ _ _ => none }

/-- A concrete upstream whose ETF endpoint returns one fixed row (day 20)
regardless of the requested range, and whose other endpoints raise. -/
def uOne : Upstream :=
  { indexHist := fun _ => none
    etfHist := fun _ _ _ => some [⟨20, 1, 0, 5, 0, 0⟩]
    stockHist := fun _ _ _ => none }

/-- A store that already holds day 20 of code `513100`, under a different
display name than the one configured for the instrument. -/
def sDup : Store :=
  [{ date := 20, code := "513100", name := "A", close := 1, pchg := some 0
     amount := 5, trate := 0, ampl := 0, vrat := 1 }]

/-- A store whose only row for name `"A"` is day 45: already ahead of a
current date of 40. -/
def sCur : Store :=
  [{ date := 45, code := "513100", name := "A", close := 1, pchg := some 0
     amount := 5, trate := 0, ampl := 0, vrat := 1 }]

/-- The record `uOne` yields for instrument `("513100", "N")`. -/
def rOne : DailyRecord :=
  { date := 20, code := "513100", name := "N", close := 1, pchg := some 0
    amount := 5, trate := 0, ampl := 0, vrat := 1 }

/-! ### Basic lemmas about the normalization and derivation pipeline -/

theorem addDerived_length (sym nm : String) (rows : List NormRow) :
    (addDerived sym nm rows).length = rows.length := by
  simp [addDerived]

theorem addDerived_getD (sym nm : String) (rows : List NormRow) (i : Nat)
    (h : i < rows.length) :
    (addDerived sym nm rows).getD i default =
      { date := (rows.getD i default).date
        code := sym
        name := nm
        close := (rows.getD i default).close
        pchg := (rows.getD i default).pchg
        amount := (rows.getD i default).amount
        trate := (rows.getD i default).trate
        ampl := (rows.getD i default).ampl
        vrat := volRat (rows.map (fun r => r.amount)) i } := by
  have hlen : i < (addDerived sym nm rows).length := by
    rw [addDerived_length]; exact h
  rw [List.getD_eq_getElem _ _ hlen]
  simp [addDerived]

theorem mem_addDerived {sym nm : String} {rows : List NormRow} {r : DailyRecord}
    (h : r ∈ addDerived sym nm rows) :
    ∃ i, i < rows.length ∧ r = (addDerived sym nm rows).getD i default := by
  rcases List.mem_iff_getElem.mp h with ⟨i, hi, hr⟩
  refine ⟨i, by simpa [addDerived_length] using hi, ?_⟩
  rw [List.getD_eq_getElem _ _ hi, hr]

theorem mem_windowFilter {s e : Nat} {rows : List NormRow} {r : NormRow}
    (h : r ∈ windowFilter s e rows) :
    r ∈ rows ∧ s ≤ r.date ∧ r.date ≤ e := by
  have := List.mem_filter.mp h
  simpa [windowFilter] using this

theorem mem_fetchData {u : Upstream} {symbol nm : String} {s e : Nat}
    {r : DailyRecord} (h : r ∈ fetchData u symbol nm s e) :
    r.code = symbol ∧ r.name = nm ∧ s ≤ r.date ∧ r.date ≤ e := by
  unfold fetchData at h
  cases hraw : rawFetch u symbol s e with
  | none => rw [hraw] at h; simp at h
  | some rows =>
    rw [hraw] at h
    unfold processBatch at h
    by_cases hemp : rows.isEmpty
    · simp [hemp] at h
    · simp [hemp] at h
      rcases mem_addDerived h with ⟨i, hi, hr⟩
      have hmem : (windowFilter s e rows).getD i default ∈ windowFilter s e rows := by
        rw [List.getD_eq_getElem _ _ hi]
        exact List.getElem_mem hi
      rcases mem_windowFilter hmem with ⟨_, h1, h2⟩
      rw [hr, addDerived_getD _ _ _ _ hi]
      exact ⟨rfl, rfl, h1, h2⟩

/-! ### Claim theorems -/

/-- C5: no record produced by `fetch_data` has a date outside the
requested `[start, end]` window: rows an over-returning upstream supplies
outside the window are discarded by the filter of lines 52-53 before
`vol_ratio` derivation and before persistence. -/
theorem noLookAheadWindow (u : Upstream) (symbol nm : String) (s e : Nat)
    (r : DailyRecord) (hr : r ∈ fetchData u symbol nm s e) :
    s ≤ r.date ∧ r.date ≤ e :=
  ⟨(mem_fetchData hr).2.2.1, (mem_fetchData hr).2.2.2⟩

/-- Witness for C5: an upstream that over-returns (a row at day 5 for the
requested window `[10, 30]`) yields exactly the in-window record. -/
theorem noLookAheadWindow_witness :
    rWin ∈ fetchData uWin "513100" "Y" 10 30 ∧ 10 ≤ rWin.date ∧ rWin.date ≤ 30 :=
  ⟨by decide, noLookAheadWindow uWin "513100" "Y" 10 30 rWin (by decide)⟩


/-- C6: on the index-path normalization, `pct_chg` is the simple
day-over-day percent change of `close` derived locally
(`df['收盘'].pct_change() * 100`), absent (`none`, pandas `NaN`) on the
first row of the batch, and `turnover_rate` and `amplitude` are fixed at
zero for every row. -/
theorem indexPathDerivation (rows : List IdxRaw) (i : Nat)
    (h : i < (normIndex rows).length) :
    ((normIndex rows).getD i default).pchg =
      (if i = 0 then none
       else
        some (((rows.getD i default).close - (rows.getD (i - 1) default).close)
          / (rows.getD (i - 1) default).close * 100))
    ∧ ((normIndex rows).getD i default).trate = 0
    ∧ ((normIndex rows).getD i default).ampl = 0 := by
  have hlen : i < rows.length := by simpa [normIndex] using h
  have h' : i < (normIndex rows).length := h
  rw [List.getD_eq_getElem _ _ h']
  simp [normIndex]

/-- Witness for C6 at a two-row index batch: the first row's change is
absent, the second is `(110 - 100) / 100 * 100 = 10`. -/
theorem indexPathDerivation_witness :
    (((normIndex [⟨1, 100, 1⟩, ⟨2, 110, 1⟩]).getD 0 default).pchg = none
      ∧ ((normIndex [⟨1, 100, 1⟩, ⟨2, 110, 1⟩]).getD 1 default).pchg = some 10)
    ∧ ((normIndex [⟨1, 100, 1⟩, ⟨2, 110, 1⟩]).getD 1 default).trate = 0
    ∧ ((normIndex [⟨1, 100, 1⟩, ⟨2, 110, 1⟩]).getD 1 default).ampl = 0 := by
  have h0 := indexPathDerivation [⟨1, 100, 1⟩, ⟨2, 110, 1⟩] 0 (by decide)
  have h1 := indexPathDerivation [⟨1, 100, 1⟩, ⟨2, 110, 1⟩] 1 (by decide)
  refine ⟨⟨?_, ?_⟩, h1.2.1, h1.2.2⟩
  · simpa using h0.1
  · rw [h1.1]; norm_num

/-- C7: category routing is a closed, deterministic three-way
classification on the code's lexical form; `"sh000001"` routes to the
index normalization path and `"513100"` to the fund (ETF) path. -/
theorem categoryRoutingClosed :
    (∀ symbol, categoryOf symbol = Category.index ∨
      categoryOf symbol = Category.fund ∨ categoryOf symbol = Category.equity)
    ∧ categoryOf "sh000001" = Category.index
    ∧ categoryOf "513100" = Category.fund
    ∧ (∀ (u : Upstream) (nm : String) (s e : Nat) (rows : List IdxRaw),
        u.indexHist "sh000001" = some rows →
        fetchData u "sh000001" nm s e = processBatch "sh000001" nm s e (normIndex rows))
    ∧ (∀ (u : Upstream) (nm : String) (s e : Nat) (rows : List FullRaw),
        u.etfHist "513100" s e = some rows →
        fetchData u "513100" nm s e = processBatch "513100" nm s e (normFull rows)) := by
  refine ⟨?_, by decide, by decide, ?_, ?_⟩
  · intro symbol
    unfold categoryOf
    split
    · exact Or.inl rfl
    · split
      · exact Or.inr (Or.inl rfl)
      · exact Or.inr (Or.inr rfl)
  · intro u nm s e rows hu
    have hc : categoryOf "sh000001" = Category.index := by decide
    simp [fetchData, rawFetch, hc, hu]
  · intro u nm s e rows hu
    have hc : categoryOf "513100" = Category.fund := by decide
    simp [fetchData, rawFetch, hc, hu]

/-- Witness for C7: the two concrete routings, run end to end through
`fetch_data` on concrete upstream responses. -/
theorem categoryRoutingClosed_witness :
    fetchData uIdxTen "sh000001" "X" 7 10 =
      processBatch "sh000001" "X" 7 10
        (normIndex [⟨1, 100, 1⟩, ⟨2, 100, 1⟩, ⟨3, 100, 1⟩, ⟨4, 100, 1⟩,
          ⟨5, 100, 1⟩, ⟨6, 100, 1⟩, ⟨7, 110, 1⟩, ⟨8, 110, 1⟩, ⟨9, 110, 1⟩,
          ⟨10, 110, 6⟩])
    ∧ fetchData uWin "513100" "Y" 10 30 =
      processBatch "513100" "Y" 10 30
        (normFull [⟨5, 1, 2, 3, 4, 5⟩, ⟨20, 2, 3, 4, 5, 6⟩]) :=
  ⟨categoryRoutingClosed.2.2.2.1 uIdxTen "X" 7 10 _ rfl,
   categoryRoutingClosed.2.2.2.2 uWin "Y" 10 30 _ rfl⟩

/-- C3: the fetch window of `sync_data` — with a checkpoint `D` for the
instrument's name the start boundary is `D + 1`; with no stored rows it is
30 days before the current date; the end boundary of the upstream call is
always the current date; and when start > end the instrument is skipped
with the "current" outcome: no fetch call, no append, the store unchanged,
no error. -/
theorem checkpointWindow (u : Upstream) (today : Nat) (s : Store)
    (code nm : String) :
    (∀ D, maxDateByName s nm = some D → startBoundary s today nm = D + 1)
    ∧ (maxDateByName s nm = none → startBoundary s today nm = today - 30)
    ∧ (startBoundary s today nm ≤ today →
        ∃ rest, (syncOne u today s code nm).2 =
          Event.fetchCall code (startBoundary s today nm) today :: rest)
    ∧ (today < startBoundary s today nm →
        syncOne u today s code nm = (some s, [Event.skippedCurrent nm])) := by
  refine ⟨?_, ?_, ?_, ?_⟩
  · intro D hD; simp [startBoundary, hD]
  · intro hD; simp [startBoundary, hD]
  · intro hle
    have hnot : ¬ today < startBoundary s today nm := not_lt.mpr hle
    unfold syncOne
    simp only [hnot, if_false]
    by_cases hemp : (fetchData u code nm (startBoundary s today nm) today).isEmpty
    · exact ⟨[Event.slept], by simp [hemp]⟩
    · simp only [hemp, if_false]
      cases happ : appendRows s (fetchData u code nm (startBoundary s today nm) today) with
      | none => exact ⟨[], by simp [happ]⟩
      | some s2 =>
        exact ⟨[Event.appended code
          (fetchData u code nm (startBoundary s today nm) today).length,
          Event.slept], by simp [happ]⟩
  · intro hlt
    unfold syncOne
    simp [hlt]

/-- Witness for C3: a store whose checkpoint for name `"A"` is day 20
(today = 40) gives start 21; an empty store gives start `40 - 30 = 10` and
a fetch event `[10, 40]`; a checkpoint at day 45 gives start 46 > 40 and
the skip outcome. -/
theorem checkpointWindow_witness :
    startBoundary sDup 40 "A" = 21
    ∧ (∃ rest, (syncOne uOne 40 [] "513100" "N").2 =
        Event.fetchCall "513100" 10 40 :: rest)
    ∧ syncOne uOne 40 sCur "513100" "A" = (some sCur, [Event.skippedCurrent "A"]) := by
  have h1 := (checkpointWindow uOne 40 sDup "513100" "A").1 20 (by decide)
  have h2 := (checkpointWindow uOne 40 [] "513100" "N").2.2.1 (by decide)
  have h3 := (checkpointWindow uOne 40 sCur "513100" "A").2.2.2 (by decide)
  exact ⟨h1, h2, h3⟩


theorem addDerived_map_amount (sym nm : String) (rows : List NormRow) :
    (addDerived sym nm rows).map (fun r => r.amount) =
      rows.map (fun r => r.amount) := by
  apply List.ext_getElem
  · simp [addDerived_length]
  · intro i h1 h2
    simp only [List.getElem_map]
    have hi : i < rows.length := by simpa using h2
    have hlen : i < (addDerived sym nm rows).length := by
      rw [addDerived_length]; exact hi
    rw [← List.getD_eq_getElem _ default hlen, addDerived_getD sym nm rows i hi]
    rw [← List.getD_eq_getElem _ default hi]

/-- Counterexample to C2: in a five-row batch the fifth record (index 4)
has only four prior rows — fewer than five — yet its `vol_ratio` is not
the claimed neutral `1.0` but `round(6 / mean(1,1,1,1,6), 2) = 3`: the
pandas rolling window of 5 counts the current row, so the mean is already
defined once 4 rows precede. -/
theorem volRatioOffByOne_cex :
    (fetchData uFive "513100" "X" 1 5).length = 5
    ∧ ((fetchData uFive "513100" "X" 1 5).getD 4 default).vrat = 3
    ∧ ¬ ((fetchData uFive "513100" "X" 1 5).getD 4 default).vrat = 1 := by
  have hv : ((fetchData uFive "513100" "X" 1 5).getD 4 default).vrat = 3 := by
    simp [fetchData, rawFetch, uFive, categoryOf, strStarts, processBatch, windowFilter,
      addDerived, normFull, volRat, rollMean5, List.filter, List.range_succ]
    norm_num [round2]
  refine ⟨by decide, hv, ?_⟩
  rw [hv]
  norm_num

/-- C2 (amended): for every record produced by `fetch_data`, `vol_ratio`
equals `round(amount / mean(trailing 5 amounts, the current row included), 2)`
when at least 4 rows precede the record in its normalized batch, and
exactly `1.0` when fewer than 4 prior rows exist in the batch. -/
theorem volRatioWindowed (u : Upstream) (symbol nm : String) (s e : Nat)
    (i : Nat) (h : i < (fetchData u symbol nm s e).length) :
    ((fetchData u symbol nm s e).getD i default).vrat =
      if 4 ≤ i then
        round2 ((((fetchData u symbol nm s e).map (fun r => r.amount)).getD i 0)
          / (((((fetchData u symbol nm s e).map (fun r => r.amount)).take (i + 1)).drop
              (i - 4)).sum / 5))
      else 1 := by
  cases hraw : rawFetch u symbol s e with
  | none =>
    have hfd : fetchData u symbol nm s e = [] := by
      unfold fetchData; rw [hraw]
    rw [hfd] at h; simp at h
  | some rows =>
    have hfd : fetchData u symbol nm s e = processBatch symbol nm s e rows := by
      unfold fetchData; rw [hraw]
    rw [hfd] at h ⊢
    unfold processBatch at h ⊢
    by_cases hemp : rows.isEmpty
    · rw [if_pos hemp] at h; simp at h
    · rw [if_neg hemp] at h ⊢
      have hi : i < (windowFilter s e rows).length := by
        rwa [addDerived_length] at h
      rw [addDerived_getD symbol nm _ i hi, addDerived_map_amount]
      unfold volRat rollMean5
      by_cases h4 : 4 ≤ i
      · simp only [h4, if_true]
      · simp [h4]

/-- Witness for C2 (amended) at the five-row batch: index 4 has four
predecessors and gets the rolling-window value. -/
theorem volRatioWindowed_witness :
    ((fetchData uFive "513100" "X" 1 5).getD 4 default).vrat =
      round2 ((((fetchData uFive "513100" "X" 1 5).map (fun r => r.amount)).getD 4 0)
        / (((((fetchData uFive "513100" "X" 1 5).map (fun r => r.amount)).take 5).drop
            0).sum / 5)) := by
  have h := volRatioWindowed uFive "513100" "X" 1 5 4 (by decide)
  simpa using h


theorem hasKey_eq_false {s : Store} {d : Nat} {c : String}
    (h : hasKey s d c = false) :
    ∀ x ∈ s, x.date ≠ d ∨ x.code ≠ c := by
  intro x hx
  have := List.any_eq_false.mp h x hx
  by_cases hd : x.date = d
  · right
    intro hc
    simp [hd, hc] at this
  · exact Or.inl hd

theorem appendRows_sound {s : Store} {rows : List DailyRecord} {s2 : Store}
    (hu : uniqueKeys s) (h : appendRows s rows = some s2) :
    s2 = s ++ rows ∧ uniqueKeys s2 := by
  induction rows generalizing s with
  | nil =>
    unfold appendRows at h
    cases h
    exact ⟨by simp, hu⟩
  | cons r rest ih =>
    unfold appendRows insertRow at h
    cases hk : hasKey s r.date r.code with
    | true => rw [hk] at h; simp at h
    | false =>
      rw [hk] at h
      simp at h
      have hu2 : uniqueKeys (s ++ [r]) := by
        unfold uniqueKeys at hu ⊢
        rw [List.pairwise_append]
        refine ⟨hu, by simp, ?_⟩
        intro a ha b hb
        rw [List.mem_singleton] at hb
        subst hb
        exact hasKey_eq_false hk a ha
      rcases ih hu2 h with ⟨he, hq⟩
      exact ⟨by rw [he, List.append_assoc]; rfl, hq⟩

theorem syncOne_sound {u : Upstream} {today : Nat} {s s2 : Store}
    {code nm : String} (hu : uniqueKeys s)
    (h : (syncOne u today s code nm).1 = some s2) :
    uniqueKeys s2 ∧ s <+: s2 := by
  unfold syncOne at h
  by_cases hskip : today < startBoundary s today nm
  · rw [if_pos hskip] at h
    cases h
    exact ⟨hu, List.prefix_rfl⟩
  · rw [if_neg hskip] at h
    by_cases hemp : (fetchData u code nm (startBoundary s today nm) today).isEmpty
    · rw [if_pos hemp] at h
      cases h
      exact ⟨hu, List.prefix_refl s⟩
    · rw [if_neg hemp] at h
      cases happ : appendRows s (fetchData u code nm (startBoundary s today nm) today) with
      | none => rw [happ] at h; simp at h
      | some s3 =>
        rw [happ] at h
        cases h
        rcases appendRows_sound hu happ with ⟨he, hq⟩
        exact ⟨hq, he ▸ List.prefix_append s _⟩

theorem syncStore_sound {u : Upstream} {today : Nat}
    {targets : List (String × String)} {s s2 : Store} (hu : uniqueKeys s)
    (h : syncStore u today targets s = some s2) :
    uniqueKeys s2 ∧ s <+: s2 := by
  induction targets generalizing s with
  | nil =>
    unfold syncStore syncData at h
    cases h
    exact ⟨hu, List.prefix_rfl⟩
  | cons t rest ih =>
    obtain ⟨code, nm⟩ := t
    unfold syncStore syncData at h
    cases hone : syncOne u today s code nm with
    | mk os evs =>
      rw [hone] at h
      cases os with
      | none => simp at h
      | some s3 =>
        simp only at h
        have h1 : (syncOne u today s code nm).1 = some s3 := by rw [hone]
        rcases syncOne_sound hu h1 with ⟨hu3, hp3⟩
        have h2 : syncStore u today rest s3 = some s2 := h
        rcases ih hu3 h2 with ⟨hu2, hp2⟩
        exact ⟨hu2, hp3.trans hp2⟩

/-- Counterexample to C1: the store already holds `(date 20, code 513100)`
(under display name `"A"`); syncing the instrument `("513100", "B")` finds
no checkpoint for `"B"`, re-fetches day 20 and attempts to insert the
already-stored `(date, code)` pair — and the run crashes (pandas `to_sql`
issues a plain `INSERT`, so sqlite raises `IntegrityError`, uncaught in
`sync_data`): the attempt is not a no-op. -/
theorem duplicateKeyCrash_cex :
    hasKey sDup 20 "513100" = true
    ∧ (fetchData uOne "513100" "B" (startBoundary sDup 40 "B") 40).isEmpty = false
    ∧ syncStore uOne 40 [("513100", "B")] sDup = none := by
  decide

/-- C1 (amended): `(date, code)` uniqueness does hold for the stored rows
— a successful sync only appends, never duplicates or alters a stored row
— but an attempt to insert a row whose `(date, code)` pair is already
stored is not a silent no-op: the `INSERT` is rejected with an error
(`IntegrityError`) that aborts the sync run. -/
theorem primaryKeyUniqueness (s : Store) (r : DailyRecord)
    (rows : List DailyRecord) (s2 : Store) (u : Upstream) (today : Nat)
    (targets : List (String × String)) (s3 : Store) :
    (hasKey s r.date r.code = true → insertRow s r = none)
    ∧ (uniqueKeys s → appendRows s rows = some s2 →
        s2 = s ++ rows ∧ uniqueKeys s2)
    ∧ (uniqueKeys s → syncStore u today targets s = some s3 →
        uniqueKeys s3 ∧ s <+: s3) := by
  refine ⟨?_, fun hu h => appendRows_sound hu h, fun hu h => syncStore_sound hu h⟩
  intro hk
  unfold insertRow
  rw [hk]
  simp

/-- Witness for C1 (amended): inserting day 20 of `513100` into a store
already holding that key errors out; a successful sync from the empty
store appends exactly the fetched row and keeps keys unique. -/
theorem primaryKeyUniqueness_witness :
    insertRow sDup rOne = none
    ∧ (uniqueKeys [rOne] ∧ [] <+: [rOne]) := by
  constructor
  · exact (primaryKeyUniqueness sDup rOne [] [] uOne 40 [] []).1 (by decide)
  · exact (primaryKeyUniqueness [] rOne [] [] uOne 40 [("513100", "N")] [rOne]).2.2
      (by simp [uniqueKeys]) (by decide)


/-- C4: a raised upstream error or an empty upstream result yields an
explicit empty `fetch_data` result (no exception escapes), and a failing
instrument does not stop the run: with instrument A's upstream raising and
a start boundary inside the window, the two-instrument run behaves on the
store exactly as a run over B alone, and B's successfully appended rows
are persisted. -/
theorem partialFailureIsolation (u : Upstream) (today : Nat) (s : Store)
    (ca na cb nb : String) :
    (∀ symbol nm a b, rawFetch u symbol a b = none →
        fetchData u symbol nm a b = [])
    ∧ (∀ symbol nm a b rows, rawFetch u symbol a b = some rows → rows = [] →
        fetchData u symbol nm a b = [])
    ∧ ((∀ a b, rawFetch u ca a b = none) →
        startBoundary s today na ≤ today →
        syncData u today [(ca, na), (cb, nb)] s =
          ((syncData u today [(cb, nb)] s).1,
            Event.fetchCall ca (startBoundary s today na) today :: Event.slept ::
              (syncData u today [(cb, nb)] s).2))
    ∧ ((∀ a b, rawFetch u ca a b = none) →
        startBoundary s today na ≤ today →
        startBoundary s today nb ≤ today →
        ∀ s2, (fetchData u cb nb (startBoundary s today nb) today).isEmpty = false →
          appendRows s (fetchData u cb nb (startBoundary s today nb) today) = some s2 →
          syncStore u today [(ca, na), (cb, nb)] s = some s2) := by
  have hemptyfetch : ∀ symbol nm a b, rawFetch u symbol a b = none →
      fetchData u symbol nm a b = [] := by
    intro symbol nm a b hraw
    unfold fetchData
    rw [hraw]
  have honeA : (∀ a b, rawFetch u ca a b = none) →
      startBoundary s today na ≤ today →
      syncOne u today s ca na =
        (some s, [Event.fetchCall ca (startBoundary s today na) today, Event.slept]) := by
    intro hA hstart
    unfold syncOne
    rw [if_neg (not_lt.mpr hstart)]
    rw [hemptyfetch ca na _ _ (hA _ _)]
    simp
  refine ⟨hemptyfetch, ?_, ?_, ?_⟩
  · intro symbol nm a b rows hraw hrows
    unfold fetchData
    rw [hraw, hrows]
    simp [processBatch]
  · intro hA hstart
    show syncData u today ((ca, na) :: [(cb, nb)]) s = _
    unfold syncData
    rw [honeA hA hstart]
    rfl
  · intro hA hstartA hstartB s2 hne happ
    unfold syncStore
    show (syncData u today ((ca, na) :: [(cb, nb)]) s).1 = some s2
    unfold syncData
    rw [honeA hA hstartA]
    simp only
    show (syncData u today ((cb, nb) :: []) s).1 = some s2
    unfold syncData
    unfold syncOne
    rw [if_neg (not_lt.mpr hstartB), if_neg (by rw [hne]; exact Bool.false_ne_true), happ]
    rfl

/-- Witness for C4: `uOne`'s index endpoint always raises, so instrument
`("sh000001", "I")` fails, while `("513100", "N")` succeeds from the empty
store: its row is persisted all the same. -/
theorem partialFailureIsolation_witness :
    syncStore uOne 40 [("sh000001", "I"), ("513100", "N")] [] = some [rOne] := by
  exact (partialFailureIsolation uOne 40 [] "sh000001" "I" "513100" "N").2.2.2
    (fun a b => rfl) (by decide) (by decide) [rOne] (by decide) (by decide)

/-- C10: `fetch_data` on the index path factors as
pct-change derivation (inside `normIndex`, over the whole upstream batch)
first, then the window filter, then `vol_ratio` derivation (inside
`addDerived`, over the filtered batch only); concretely, with history
days 1-10 (close 100 until day 6, 110 from day 7; amount 1 except 6 on
day 10) and requested window `[7, 10]`, the first in-window record's
`pct_chg` is `10`, derived from out-of-window day 6, while every record's
`vol_ratio` is the neutral `1` because the filtered batch alone never
reaches 5 rows — even though day 10 has 9 predecessors upstream. -/
theorem pctPrefilterVolRatioPostfilter :
    (∀ (u : Upstream) (symbol nm : String) (s e : Nat) (rows : List IdxRaw),
        categoryOf symbol = Category.index →
        u.indexHist symbol = some rows →
        fetchData u symbol nm s e =
          addDerived symbol nm (windowFilter s e (normIndex rows)))
    ∧ fetchData uIdxTen "sh000001" "X" 7 10 =
        [{ date := 7, code := "sh000001", name := "X", close := 110,
           pchg := some 10, amount := 1, trate := 0, ampl := 0, vrat := 1 },
         { date := 8, code := "sh000001", name := "X", close := 110,
           pchg := some 0, amount := 1, trate := 0, ampl := 0, vrat := 1 },
         { date := 9, code := "sh000001", name := "X", close := 110,
           pchg := some 0, amount := 1, trate := 0, ampl := 0, vrat := 1 },
         { date := 10, code := "sh000001", name := "X", close := 110,
           pchg := some 0, amount := 6, trate := 0, ampl := 0, vrat := 1 }] := by
  constructor
  · intro u symbol nm s e rows hc hu
    unfold fetchData rawFetch
    rw [hc, hu]
    show processBatch symbol nm s e (normIndex rows) = _
    unfold processBatch
    by_cases hemp : (normIndex rows).isEmpty
    · rw [if_pos hemp]
      rw [List.isEmpty_iff] at hemp
      rw [hemp]
      simp [windowFilter, addDerived]
    · rw [if_neg hemp]
  · simp [fetchData, rawFetch, uIdxTen, categoryOf, strStarts, processBatch,
      windowFilter, addDerived, normIndex, volRat, rollMean5, List.filter,
      List.range_succ]
    norm_num

/-- Witness for C10: the factorization applied to the concrete ten-day
index history. -/
theorem pctPrefilterVolRatioPostfilter_witness :
    fetchData uIdxTen "sh000001" "X" 7 10 =
      addDerived "sh000001" "X" (windowFilter 7 10 (normIndex
        [⟨1, 100, 1⟩, ⟨2, 100, 1⟩, ⟨3, 100, 1⟩, ⟨4, 100, 1⟩, ⟨5, 100, 1⟩,
         ⟨6, 100, 1⟩, ⟨7, 110, 1⟩, ⟨8, 110, 1⟩, ⟨9, 110, 1⟩, ⟨10, 110, 6⟩])) :=
  pctPrefilterVolRatioPostfilter.1 uIdxTen "sh000001" "X" 7 10 _ (by decide) rfl


theorem appendRows_eq {s : Store} {rows : List DailyRecord} {s2 : Store}
    (h : appendRows s rows = some s2) : s2 = s ++ rows := by
  induction rows generalizing s with
  | nil =>
    unfold appendRows at h
    cases h
    simp
  | cons r rest ih =>
    unfold appendRows insertRow at h
    cases hk : hasKey s r.date r.code with
    | true => rw [hk] at h; simp at h
    | false =>
      rw [hk] at h
      simp at h
      rw [ih h, List.append_assoc]
      rfl

theorem maxDateByName_nil (nm : String) : maxDateByName [] nm = none := rfl

theorem maxDateByName_cons (r : DailyRecord) (s : Store) (nm : String) :
    maxDateByName (r :: s) nm =
      (if r.name = nm then
        some (match maxDateByName s nm with
          | none => r.date
          | some m => Nat.max r.date m)
      else maxDateByName s nm) := rfl

theorem maxDateByName_eq_none {s : Store} {nm : String} :
    maxDateByName s nm = none ↔ ∀ r ∈ s, r.name ≠ nm := by
  induction s with
  | nil => simp [maxDateByName_nil]
  | cons r t ih =>
    rw [maxDateByName_cons]
    by_cases hr : r.name = nm
    · simp [hr]
    · simp [hr, ih]

theorem maxDateByName_attained {s : Store} {nm : String} {m : Nat}
    (h : maxDateByName s nm = some m) :
    ∃ r ∈ s, r.name = nm ∧ r.date = m := by
  induction s generalizing m with
  | nil => simp [maxDateByName_nil] at h
  | cons r t ih =>
    rw [maxDateByName_cons] at h
    by_cases hr : r.name = nm
    · rw [if_pos hr] at h
      cases hmt : maxDateByName t nm with
      | none =>
        rw [hmt] at h
        have hh : r.date = m := Option.some.inj h
        exact ⟨r, by simp, hr, hh⟩
      | some k =>
        rw [hmt] at h
        have hh : Nat.max r.date k = m := Option.some.inj h
        by_cases hle : k ≤ r.date
        · refine ⟨r, by simp, hr, ?_⟩
          rw [← hh]
          exact (Nat.max_eq_left hle).symm
        · rcases ih hmt with ⟨r', hr', hn', hd'⟩
          refine ⟨r', by simp [hr'], hn', ?_⟩
          rw [hd', ← hh]
          exact (Nat.max_eq_right (Nat.le_of_not_le hle)).symm
    · rw [if_neg hr] at h
      rcases ih h with ⟨r', hr', hn', hd'⟩
      exact ⟨r', by simp [hr'], hn', hd'⟩

theorem maxDateByName_bound {s : Store} {nm : String} {r : DailyRecord}
    (hr : r ∈ s) (hn : r.name = nm) :
    ∃ m, maxDateByName s nm = some m ∧ r.date ≤ m := by
  induction s with
  | nil => simp at hr
  | cons x t ih =>
    rw [maxDateByName_cons]
    rcases List.mem_cons.mp hr with hx | ht
    · subst hx
      rw [if_pos hn]
      cases hmt : maxDateByName t nm with
      | none => exact ⟨r.date, rfl, le_refl _⟩
      | some k => exact ⟨Nat.max r.date k, rfl, Nat.le_max_left _ _⟩
    · rcases ih ht with ⟨m, hm, hle⟩
      by_cases hx : x.name = nm
      · rw [if_pos hx, hm]
        exact ⟨Nat.max x.date m, rfl, le_trans hle (Nat.le_max_right _ _)⟩
      · rw [if_neg hx]
        exact ⟨m, hm, hle⟩

theorem maxDateByName_append (s t : Store) (nm : String) :
    maxDateByName (s ++ t) nm =
      (match maxDateByName s nm, maxDateByName t nm with
      | none, b => b
      | some m, none => some m
      | some m, some k => some (Nat.max m k)) := by
  induction s with
  | nil =>
    rw [List.nil_append, maxDateByName_nil]
  | cons x s' ih =>
    rw [List.cons_append, maxDateByName_cons, maxDateByName_cons, ih]
    by_cases hx : x.name = nm
    · rw [if_pos hx, if_pos hx]
      cases maxDateByName s' nm <;> cases maxDateByName t nm <;>
        simp [Nat.max_assoc]
    · rw [if_neg hx, if_neg hx]

theorem maxDateByName_append_no {s t : Store} {nm : String}
    (h : ∀ r ∈ t, r.name ≠ nm) :
    maxDateByName (s ++ t) nm = maxDateByName s nm := by
  rw [maxDateByName_append, maxDateByName_eq_none.mpr h]
  cases maxDateByName s nm <;> rfl

theorem maxDateByName_append_mono {s t : Store} {nm : String} {m0 : Nat}
    (h : maxDateByName s nm = some m0) :
    ∃ m, maxDateByName (s ++ t) nm = some m ∧ m0 ≤ m := by
  rw [maxDateByName_append, h]
  cases maxDateByName t nm with
  | none => exact ⟨m0, rfl, le_refl _⟩
  | some k => exact ⟨Nat.max m0 k, rfl, Nat.le_max_left _ _⟩

theorem fetchData_shape {u : Upstream} {symbol nm : String} {s e : Nat}
    (h : (fetchData u symbol nm s e).isEmpty = false) :
    ∃ rows, rawFetch u symbol s e = some rows ∧ rows.isEmpty = false ∧
      fetchData u symbol nm s e =
        addDerived symbol nm (windowFilter s e rows) := by
  cases hraw : rawFetch u symbol s e with
  | none =>
    unfold fetchData at h
    rw [hraw] at h
    simp at h
  | some rows =>
    have hfd : fetchData u symbol nm s e = processBatch symbol nm s e rows := by
      unfold fetchData
      rw [hraw]
    cases hemp : rows.isEmpty with
    | true =>
      rw [hfd] at h
      unfold processBatch at h
      rw [hemp] at h
      simp at h
    | false =>
      refine ⟨rows, rfl, hemp, ?_⟩
      rw [hfd]
      unfold processBatch
      rw [hemp]
      simp

theorem fetchData_covers {u : Upstream} {symbol nm : String} {s e : Nat}
    {rows : List NormRow} (hraw : rawFetch u symbol s e = some rows)
    {r : NormRow} (hr : r ∈ rows) (h1 : s ≤ r.date) (h2 : r.date ≤ e) :
    ∃ rec ∈ fetchData u symbol nm s e, rec.date = r.date := by
  have hfd : fetchData u symbol nm s e = processBatch symbol nm s e rows := by
    unfold fetchData
    rw [hraw]
  have hne : rows.isEmpty = false := by
    cases rows
    · simp at hr
    · rfl
  rw [hfd]
  unfold processBatch
  rw [hne]
  simp only [Bool.false_eq_true, if_false]
  have hrf : r ∈ windowFilter s e rows := by
    unfold windowFilter
    exact List.mem_filter.mpr ⟨hr, by simp [h1, h2]⟩
  rcases List.mem_iff_getElem.mp hrf with ⟨i, hi, heq⟩
  have hil : i < (addDerived symbol nm (windowFilter s e rows)).length := by
    rw [addDerived_length]
    exact hi
  refine ⟨(addDerived symbol nm (windowFilter s e rows)).getD i default, ?_, ?_⟩
  · rw [List.getD_eq_getElem _ _ hil]
    exact List.getElem_mem hil
  · rw [addDerived_getD _ _ _ _ hi]
    simp only
    rw [List.getD_eq_getElem _ _ hi, heq]

theorem syncStore_names {u : Upstream} {today : Nat}
    {targets : List (String × String)} {s s2 : Store}
    (h : syncStore u today targets s = some s2) :
    ∃ t, s2 = s ++ t ∧ ∀ r ∈ t, r.name ∈ targets.map Prod.snd := by
  induction targets generalizing s with
  | nil =>
    unfold syncStore syncData at h
    cases h
    exact ⟨[], by simp, by simp⟩
  | cons tgt rest ih =>
    obtain ⟨code, nm⟩ := tgt
    unfold syncStore syncData at h
    cases hone : (syncOne u today s code nm) with
    | mk os evs =>
      rw [hone] at h
      cases os with
      | none => simp at h
      | some s3 =>
        simp only at h
        have h2 : syncStore u today rest s3 = some s2 := h
        rcases ih h2 with ⟨t2, ht2, hn2⟩
        have hone1 : (syncOne u today s code nm).1 = some s3 := by rw [hone]
        -- characterize s3: either s3 = s, or s3 = s ++ data with data from fetchData
        unfold syncOne at hone1
        by_cases hskip : today < startBoundary s today nm
        · rw [if_pos hskip] at hone1
          cases hone1
          exact ⟨t2, ht2, fun r hr => List.mem_cons_of_mem _ (hn2 r hr)⟩
        · rw [if_neg hskip] at hone1
          by_cases hemp : (fetchData u code nm (startBoundary s today nm) today).isEmpty
          · rw [if_pos hemp] at hone1
            cases hone1
            exact ⟨t2, ht2, fun r hr => List.mem_cons_of_mem _ (hn2 r hr)⟩
          · rw [if_neg hemp] at hone1
            cases happ : appendRows s (fetchData u code nm (startBoundary s today nm) today) with
            | none => rw [happ] at hone1; simp at hone1
            | some s4 =>
              rw [happ] at hone1
              cases hone1
              have hs3 : s3 = s ++ fetchData u code nm (startBoundary s today nm) today :=
                appendRows_eq happ
              refine ⟨fetchData u code nm (startBoundary s today nm) today ++ t2, ?_, ?_⟩
              · rw [ht2, hs3, List.append_assoc]
              · intro r hr
                rcases List.mem_append.mp hr with hrd | hrt
                · rw [List.map_cons, (mem_fetchData hrd).2.1]
                  exact List.mem_cons_self _ _
                · exact List.mem_cons_of_mem _ (hn2 r hrt)


theorem syncOne_idem {u : Upstream} {today : Nat} {s0 sA S : Store}
    {code nm : String}
    (hcoh : ∀ a b a' b', rawFetch u code a b = rawFetch u code a' b')
    (h1 : (syncOne u today s0 code nm).1 = some sA)
    (hM : maxDateByName S nm = maxDateByName sA nm) :
    (syncOne u today S code nm).1 = some S
    ∧ ∀ c n, Event.appended c n ∉ (syncOne u today S code nm).2 := by
  unfold syncOne at h1
  by_cases hskip : today < startBoundary s0 today nm
  · rw [if_pos hskip] at h1
    have hsA : s0 = sA := Option.some.inj h1
    subst hsA
    cases hmx : maxDateByName s0 nm with
    | none =>
      exfalso
      have hsb : startBoundary s0 today nm = today - 30 := by
        unfold startBoundary
        rw [hmx]
      omega
    | some m0 =>
      have hsb : startBoundary s0 today nm = m0 + 1 := by
        unfold startBoundary
        rw [hmx]
      have hSb : startBoundary S today nm = m0 + 1 := by
        unfold startBoundary
        rw [hM, hmx]
      have hskip2 : today < startBoundary S today nm := by
        rw [hSb]
        rw [hsb] at hskip
        exact hskip
      unfold syncOne
      rw [if_pos hskip2]
      refine ⟨rfl, ?_⟩
      intro c n hmem
      simp at hmem
  · rw [if_neg hskip] at h1
    by_cases hemp : (fetchData u code nm (startBoundary s0 today nm) today).isEmpty
    · rw [if_pos hemp] at h1
      have hsA : s0 = sA := Option.some.inj h1
      subst hsA
      have hSb : startBoundary S today nm = startBoundary s0 today nm := by
        unfold startBoundary
        rw [hM]
      unfold syncOne
      rw [hSb, if_neg hskip, if_pos hemp]
      refine ⟨rfl, ?_⟩
      intro c n hmem
      simp at hmem
    · rw [if_neg hemp] at h1
      cases happ : appendRows s0 (fetchData u code nm (startBoundary s0 today nm) today) with
      | none => rw [happ] at h1; simp at h1
      | some s4 =>
        rw [happ] at h1
        have hs4 : s4 = sA := Option.some.inj h1
        subst hs4
        have hsA : s4 = s0 ++ fetchData u code nm (startBoundary s0 today nm) today :=
          appendRows_eq happ
        have hne : (fetchData u code nm (startBoundary s0 today nm) today).isEmpty = false :=
          Bool.eq_false_iff.mpr hemp
        rcases fetchData_shape hne with ⟨rows, hraw, hrowsne, hfde⟩
        have hdnil : fetchData u code nm (startBoundary s0 today nm) today ≠ [] := by
          intro hnil
          rw [hnil] at hne
          simp at hne
        obtain ⟨rec0, hrec0⟩ := List.exists_mem_of_ne_nil _ hdnil
        have hrec0mem : rec0 ∈ s4 := by
          rw [hsA]
          exact List.mem_append_right _ hrec0
        obtain ⟨m, hm, _⟩ := maxDateByName_bound hrec0mem (mem_fetchData hrec0).2.1
        have hdlem : ∀ rec ∈ fetchData u code nm (startBoundary s0 today nm) today,
            rec.date ≤ m := by
          intro rec hrec
          have hmem2 : rec ∈ s4 := by
            rw [hsA]
            exact List.mem_append_right _ hrec
          obtain ⟨m', hm', hle'⟩ := maxDateByName_bound hmem2 (mem_fetchData hrec).2.1
          rw [hm] at hm'
          cases hm'
          exact hle'
        have hstartm : startBoundary s0 today nm ≤ m + 1 := by
          cases hmx : maxDateByName s0 nm with
          | none =>
            obtain ⟨r', hr', hn', hd'⟩ := maxDateByName_attained hm
            rw [hsA] at hr'
            rcases List.mem_append.mp hr' with h0 | hd
            · exact absurd hn' (maxDateByName_eq_none.mp hmx r' h0)
            · have hge := (mem_fetchData hd).2.2.1
              rw [hd'] at hge
              omega
          | some m0 =>
            have hsb : startBoundary s0 today nm = m0 + 1 := by
              unfold startBoundary
              rw [hmx]
            obtain ⟨m2, hm2, hle2⟩ := maxDateByName_append_mono
              (t := fetchData u code nm (startBoundary s0 today nm) today) hmx
            rw [← hsA, hm] at hm2
            cases hm2
            omega
        have hSb : startBoundary S today nm = m + 1 := by
          unfold startBoundary
          rw [hM, hm]
        unfold syncOne
        rw [hSb]
        by_cases hskip2 : today < m + 1
        · rw [if_pos hskip2]
          refine ⟨rfl, ?_⟩
          intro c n hmem
          simp at hmem
        · rw [if_neg hskip2]
          have hraw2 : rawFetch u code (m + 1) today = some rows :=
            (hcoh (m + 1) today (startBoundary s0 today nm) today).trans hraw
          have hwf : windowFilter (m + 1) today rows = [] := by
            by_contra hne2
            obtain ⟨r, hr⟩ := List.exists_mem_of_ne_nil _ hne2
            obtain ⟨hrmem, hge, hle⟩ := mem_windowFilter hr
            have hge0 : startBoundary s0 today nm ≤ r.date := le_trans hstartm hge
            obtain ⟨rec, hrecmem, hrecd⟩ := fetchData_covers hraw hrmem hge0 hle
            have hrecle := hdlem rec hrecmem
            omega
          have hemp2 : (fetchData u code nm (m + 1) today).isEmpty = true := by
            have hfd2 : fetchData u code nm (m + 1) today =
                processBatch code nm (m + 1) today rows := by
              unfold fetchData
              rw [hraw2]
            rw [hfd2]
            unfold processBatch
            rw [hwf]
            simp [hrowsne, addDerived]
          rw [if_pos hemp2]
          refine ⟨rfl, ?_⟩
          intro c n hmem
          simp at hmem


/-- C8: running `sync_data` twice in succession — same fixed upstream data
(the response does not depend on the requested range: nothing new appeared
between the runs), same current date, distinct display names — appends
zero rows on the second run and leaves the store identical: given the
first run ended in store `s1`, the second run from `s1` returns `s1`
unchanged and its trace has no append event. -/
theorem syncTwiceIdempotent (u : Upstream) (today : Nat)
    (targets : List (String × String)) (s0 s1 : Store)
    (hnames : (targets.map Prod.snd).Nodup)
    (hcoh : ∀ code a b a' b', rawFetch u code a b = rawFetch u code a' b')
    (hrun1 : syncStore u today targets s0 = some s1) :
    syncStore u today targets s1 = some s1
    ∧ ∀ c n, Event.appended c n ∉ (syncData u today targets s1).2 := by
  induction targets generalizing s0 s1 with
  | nil =>
    unfold syncStore syncData at hrun1 ⊢
    cases hrun1
    refine ⟨rfl, ?_⟩
    intro c n hmem
    simp at hmem
  | cons tgt rest ih =>
    obtain ⟨code, nm⟩ := tgt
    unfold syncStore syncData at hrun1
    cases hone : syncOne u today s0 code nm with
    | mk os evs =>
      rw [hone] at hrun1
      cases os with
      | none => simp at hrun1
      | some sA =>
        simp only at hrun1
        have hrest1 : syncStore u today rest sA = some s1 := hrun1
        rw [List.map_cons] at hnames
        have hcons := List.nodup_cons.mp hnames
        obtain ⟨t, hts, htn⟩ := syncStore_names hrest1
        have hM : maxDateByName s1 nm = maxDateByName sA nm := by
          rw [hts]
          refine maxDateByName_append_no ?_
          intro r hr hn
          exact hcons.1 (hn ▸ htn r hr)
        have hone1 : (syncOne u today s0 code nm).1 = some sA := by rw [hone]
        obtain ⟨hid1, hid2⟩ := syncOne_idem (hcoh code) hone1 hM
        obtain ⟨hr2, hn2⟩ := ih sA s1 hcons.2 hrest1
        have hone2 : syncOne u today s1 code nm =
            (some s1, (syncOne u today s1 code nm).2) := by
          rw [← hid1]
        constructor
        · unfold syncStore syncData
          rw [hone2]
          simp only
          unfold syncStore at hr2
          exact hr2
        · have htr : (syncData u today ((code, nm) :: rest) s1).2 =
              (syncOne u today s1 code nm).2 ++ (syncData u today rest s1).2 := by
            simp only [syncData]
            rw [hone2]
          intro c n hmem
          rw [htr] at hmem
          rcases List.mem_append.mp hmem with hml | hmr
          · exact hid2 c n hml
          · exact hn2 c n hmr

/-- Witness for C8 at a concrete single-instrument run: `uOne` returns the
same day-20 row for any requested range; the first run from the empty
store persists it, the second run from that store changes nothing. -/
theorem syncTwiceIdempotent_witness :
    syncStore uOne 40 [("513100", "N")] [rOne] = some [rOne] := by
  refine (syncTwiceIdempotent uOne 40 [("513100", "N")] [] [rOne] (by decide)
    ?_ (by decide)).1
  intro code a b a' b'
  unfold rawFetch
  cases categoryOf code <;> rfl


theorem pacedFrom_sound (t : List Event) : ∀ (b : Bool), pacedFrom b t = true →
    (∀ (i j : Nat), i < j →
      (∃ c a e, t[i]? = some (Event.fetchCall c a e)) →
      (∃ c a e, t[j]? = some (Event.fetchCall c a e)) →
      ∃ k : Nat, i < k ∧ k < j ∧ t[k]? = some Event.slept)
    ∧ (b = true → ∀ j : Nat, (∃ c a e, t[j]? = some (Event.fetchCall c a e)) →
      ∃ k : Nat, k < j ∧ t[k]? = some Event.slept) := by
  induction t with
  | nil =>
    intro b _
    constructor
    · intro i j _ hi _
      rcases hi with ⟨c, a, e, hi⟩
      simp at hi
    · intro _ j hj
      rcases hj with ⟨c, a, e, hj⟩
      simp at hj
  | cons ev rest ih =>
    intro b hp
    cases ev with
    | slept =>
      have hp2 : pacedFrom false rest = true := by
        simpa [pacedFrom] using hp
      have IH := ih false hp2
      constructor
      · intro i j hij hi hj
        cases i with
        | zero =>
          rcases hi with ⟨c, a, e, hi⟩
          simp at hi
        | succ i' =>
          cases j with
          | zero => omega
          | succ j' =>
            have hi' : ∃ c a e, rest[i']? = some (Event.fetchCall c a e) := by
              simpa using hi
            have hj' : ∃ c a e, rest[j']? = some (Event.fetchCall c a e) := by
              simpa using hj
            rcases IH.1 i' j' (by omega) hi' hj' with ⟨k, hk1, hk2, hk3⟩
            exact ⟨k + 1, by omega, by omega, by simpa using hk3⟩
      · intro _ j hj
        cases j with
        | zero =>
          rcases hj with ⟨c, a, e, hj⟩
          simp at hj
        | succ j' => exact ⟨0, by omega, by simp⟩
    | fetchCall c0 a0 e0 =>
      have hb : b = false := by
        cases b
        · rfl
        · simp [pacedFrom] at hp
      subst hb
      have hp2 : pacedFrom true rest = true := by
        simpa [pacedFrom] using hp
      have IH := ih true hp2
      constructor
      · intro i j hij hi hj
        cases j with
        | zero => omega
        | succ j' =>
          have hj' : ∃ c a e, rest[j']? = some (Event.fetchCall c a e) := by
            simpa using hj
          cases i with
          | zero =>
            rcases IH.2 rfl j' hj' with ⟨k, hk1, hk2⟩
            exact ⟨k + 1, by omega, by omega, by simpa using hk2⟩
          | succ i' =>
            have hi' : ∃ c a e, rest[i']? = some (Event.fetchCall c a e) := by
              simpa using hi
            rcases IH.1 i' j' (by omega) hi' hj' with ⟨k, hk1, hk2, hk3⟩
            exact ⟨k + 1, by omega, by omega, by simpa using hk3⟩
      · intro hfalse
        simp at hfalse
    | appended c0 n0 =>
      have hp2 : pacedFrom b rest = true := by
        simpa [pacedFrom] using hp
      have IH := ih b hp2
      constructor
      · intro i j hij hi hj
        cases i with
        | zero =>
          rcases hi with ⟨c, a, e, hi⟩
          simp at hi
        | succ i' =>
          cases j with
          | zero => omega
          | succ j' =>
            have hi' : ∃ c a e, rest[i']? = some (Event.fetchCall c a e) := by
              simpa using hi
            have hj' : ∃ c a e, rest[j']? = some (Event.fetchCall c a e) := by
              simpa using hj
            rcases IH.1 i' j' (by omega) hi' hj' with ⟨k, hk1, hk2, hk3⟩
            exact ⟨k + 1, by omega, by omega, by simpa using hk3⟩
      · intro hb j hj
        cases j with
        | zero =>
          rcases hj with ⟨c, a, e, hj⟩
          simp at hj
        | succ j' =>
          have hj' : ∃ c a e, rest[j']? = some (Event.fetchCall c a e) := by
            simpa using hj
          rcases IH.2 hb j' hj' with ⟨k, hk1, hk2⟩
          exact ⟨k + 1, by omega, by simpa using hk2⟩
    | skippedCurrent nm0 =>
      have hp2 : pacedFrom b rest = true := by
        simpa [pacedFrom] using hp
      have IH := ih b hp2
      constructor
      · intro i j hij hi hj
        cases i with
        | zero =>
          rcases hi with ⟨c, a, e, hi⟩
          simp at hi
        | succ i' =>
          cases j with
          | zero => omega
          | succ j' =>
            have hi' : ∃ c a e, rest[i']? = some (Event.fetchCall c a e) := by
              simpa using hi
            have hj' : ∃ c a e, rest[j']? = some (Event.fetchCall c a e) := by
              simpa using hj
            rcases IH.1 i' j' (by omega) hi' hj' with ⟨k, hk1, hk2, hk3⟩
            exact ⟨k + 1, by omega, by omega, by simpa using hk3⟩
      · intro hb j hj
        cases j with
        | zero =>
          rcases hj with ⟨c, a, e, hj⟩
          simp at hj
        | succ j' =>
          have hj' : ∃ c a e, rest[j']? = some (Event.fetchCall c a e) := by
            simpa using hj
          rcases IH.2 hb j' hj' with ⟨k, hk1, hk2⟩
          exact ⟨k + 1, by omega, by simpa using hk2⟩

theorem syncData_paced (u : Upstream) (today : Nat)
    (targets : List (String × String)) (s : Store) :
    pacedFrom false (syncData u today targets s).2 = true := by
  induction targets generalizing s with
  | nil => rfl
  | cons tgt rest ih =>
    obtain ⟨code, nm⟩ := tgt
    simp only [syncData]
    by_cases hskip : today < startBoundary s today nm
    · unfold syncOne
      rw [if_pos hskip]
      simp only
      simpa [pacedFrom] using ih s
    · unfold syncOne
      rw [if_neg hskip]
      by_cases hemp : (fetchData u code nm (startBoundary s today nm) today).isEmpty
      · rw [if_pos hemp]
        simp only
        simpa [pacedFrom] using ih s
      · rw [if_neg hemp]
        cases happ : appendRows s (fetchData u code nm (startBoundary s today nm) today) with
        | none => simp [pacedFrom]
        | some s2 =>
          simp only
          simpa [pacedFrom] using ih s2

/-- C9: between any two upstream fetch calls of one sync run there is a
`time.sleep(0.5)` — a pause of at least 0.5 seconds — strictly between
them in the run's event trace: no two upstream calls are issued within
0.5s of each other. -/
theorem fetchPacing (u : Upstream) (today : Nat)
    (targets : List (String × String)) (s : Store) (i j : Nat) (hij : i < j)
    (hi : ∃ c a e, (syncData u today targets s).2[i]? =
      some (Event.fetchCall c a e))
    (hj : ∃ c a e, (syncData u today targets s).2[j]? =
      some (Event.fetchCall c a e)) :
    ∃ k, i < k ∧ k < j ∧ (syncData u today targets s).2[k]? = some Event.slept :=
  (pacedFrom_sound (syncData u today targets s).2 false
    (syncData_paced u today targets s)).1 i j hij hi hj

/-- Witness for C9: a two-instrument run whose trace has fetch calls at
positions 0 and 3; the sleep lies strictly between them. -/
theorem fetchPacing_witness :
    ∃ k, 0 < k ∧ k < 3 ∧
      (syncData uOne 40 [("513100", "N"), ("159919", "M")] []).2[k]? =
        some Event.slept :=
  fetchPacing uOne 40 [("513100", "N"), ("159919", "M")] [] 0 3 (by omega)
    ⟨"513100", 10, 40, by decide⟩ ⟨"159919", 10, 40, by decide⟩

end CnStockMonitor
